import Mathlib

/-!
Verification development for the oop_regex_toolkit repository.

The file embeds, as Lean definitions:

* the pattern cache `RegexCompiler.compile_pattern` and its string cache key
  (src/regex_tester.py), parametric over the external compile routine that
  the Python code imports from its host regex library;
* the error taxonomy and the functions `validate_regex` and `find_pattern`
  (src/exceptions.py), again parametric over the external engine;
* a backtracking matching engine with capture groups, modelled from the
  spec's parser/compiler/matcher design, standing in for the external
  engine that the repository delegates matching to;
* the wrapper `RegexMatcher` operations `match`, `find_all` and `replace`
  (src/regex_tester.py) built on top of that engine.

Theorems named after claim identifiers settle the claims.
-/

/-- Characters of the base-10 rendering of a natural number, most significant
digit first, driven by an explicit fuel so that it is structurally recursive;
models the Python text `str(flags)` produced inside the f-string cache key. -/
def decChars (fuel n : Nat) : List Char :=
  match fuel with
  | 0 => []
  | f + 1 =>
      if n < 10 then [Char.ofNat (48 + n)]
      else decChars f (n / 10) ++ [Char.ofNat (48 + n % 10)]

/-- The Python decimal rendering `str(n)` of a natural number. -/
def pyNatStr (n : Nat) : String :=
  String.mk (decChars (n + 1) n)

/-- Numeric value recovered from a list of decimal digit characters. -/
def valOfDigits (l : List Char) : Nat :=
  l.foldl (fun a c => a * 10 + (c.toNat - 48)) 0

theorem toNat_ofNat_digit (k : Nat) (h : k < 10) :
    (Char.ofNat (48 + k)).toNat = 48 + k := by
  interval_cases k <;> decide

theorem decChars_digits :
    ∀ fuel n, n < fuel → ∀ c ∈ decChars fuel n, 48 ≤ c.toNat ∧ c.toNat ≤ 57 := by
  intro fuel
  induction fuel with
  | zero => intro n h; omega
  | succ f ih =>
      intro n h c hc
      unfold decChars at hc
      by_cases h10 : n < 10
      · simp [h10] at hc
        subst hc
        rw [toNat_ofNat_digit n h10]
        omega
      · simp [h10] at hc
        rcases hc with hc | hc
        · have hdiv : n / 10 < f := by
            have h1 : n / 10 < n := Nat.div_lt_self (by omega) (by omega)
            omega
          exact ih (n / 10) hdiv c hc
        · subst hc
          have hm : n % 10 < 10 := Nat.mod_lt _ (by omega)
          rw [toNat_ofNat_digit _ hm]
          omega

theorem underscore_not_mem_decChars (fuel n : Nat) (h : n < fuel) :
    ('_' : Char) ∉ decChars fuel n := by
  intro hmem
  have := decChars_digits fuel n h '_' hmem
  have h95 : ('_' : Char).toNat = 95 := by decide
  omega

theorem valOfDigits_append_digit (l : List Char) (c : Char) :
    valOfDigits (l ++ [c]) = valOfDigits l * 10 + (c.toNat - 48) := by
  unfold valOfDigits
  rw [List.foldl_append]
  rfl

theorem valOfDigits_decChars :
    ∀ fuel n, n < fuel → valOfDigits (decChars fuel n) = n := by
  intro fuel
  induction fuel with
  | zero => intro n h; omega
  | succ f ih =>
      intro n h
      unfold decChars
      by_cases h10 : n < 10
      · simp only [h10, if_true]
        show valOfDigits [Char.ofNat (48 + n)] = n
        unfold valOfDigits
        simp [toNat_ofNat_digit n h10]
      · simp only [h10, if_false]
        rw [valOfDigits_append_digit]
        have hdiv : n / 10 < f := by
          have h1 : n / 10 < n := Nat.div_lt_self (by omega) (by omega)
          omega
        rw [ih (n / 10) hdiv]
        have hm : n % 10 < 10 := Nat.mod_lt _ (by omega)
        rw [toNat_ofNat_digit _ hm]
        omega

theorem append_sep_inj {α : Type} (c : α) :
    ∀ (x1 x2 y1 y2 : List α), c ∉ y1 → c ∉ y2 →
      x1 ++ c :: y1 = x2 ++ c :: y2 → x1 = x2 ∧ y1 = y2 := by
  intro x1
  induction x1 with
  | nil =>
      intro x2 y1 y2 hy1 hy2 h
      cases x2 with
      | nil => simpa using h
      | cons b t =>
          simp at h
          exfalso
          apply hy1
          rw [h.2]
          exact List.mem_append_right t (by simp [h.1])
  | cons a t1 ih =>
      intro x2 y1 y2 hy1 hy2 h
      cases x2 with
      | nil =>
          simp at h
          exfalso
          apply hy2
          rw [← h.2]
          exact List.mem_append_right t1 (by simp [h.1])
      | cons b t2 =>
          simp at h
          obtain ⟨rfl, h2⟩ := h
          obtain ⟨rfl, rfl⟩ := ih t2 y1 y2 hy1 hy2 h2
          exact ⟨rfl, rfl⟩

/-- The cache key built by `RegexCompiler.compile_pattern`: the Python
f-string joining the pattern text and the flag value with an underscore. -/
def cacheKey (p : String) (flags : Nat) : String :=
  p ++ "_" ++ pyNatStr flags

/-- The cache dictionary owned by a `RegexCompiler` instance: an association
from cache-key strings to compiled automata of type `A`. -/
structure CacheSt (A : Type) where
  cache : List (String × A)

/-- Dictionary membership test plus retrieval, as used by
`cache_key not in self._cache` and `self._cache[cache_key]`. -/
def cacheFind {A : Type} (l : List (String × A)) (k : String) : Option A :=
  match l.find? (fun e => e.1 == k) with
  | some e => some e.2
  | none => none

/-- `RegexCompiler.compile_pattern`: build the cache key; if absent, run the
external compile routine `rc`, inserting on success and re-raising compile
failure as a `RegexError` message; finally return the cached automaton.
The pair returned carries the resulting cache state explicitly. -/
def compile_pattern {A : Type} (rc : String → Nat → Except String A)
    (st : CacheSt A) (p : String) (flags : Nat) :
    Except String A × CacheSt A :=
  match cacheFind st.cache (cacheKey p flags) with
  | some a => (Except.ok a, st)
  | none =>
      match rc p flags with
      | Except.ok a =>
          (Except.ok a, CacheSt.mk ((cacheKey p flags, a) :: st.cache))
      | Except.error e => (Except.error ("Invalid regex pattern: " ++ e), st)

/-- External compile routine that rejects every pattern; used to exercise the
failure path of the cache at a concrete input. -/
def rcAlwaysBad : String → Nat → Except String Unit :=
  fun _ _ => Except.error "bad pattern"

/-- External compile routine that accepts every pattern, returning the pair
of pattern text and flags as the automaton; used at concrete inputs. -/
def rcAlwaysOk : String → Nat → Except String (String × Nat) :=
  fun p f => Except.ok (p, f)

/-- C2: on a syntactically invalid pattern whose key is not cached,
`compile_pattern` propagates the compile failure to its caller and leaves
the cache unchanged, so the key is still absent afterwards and a later call
with the same key attempts compilation again. -/
theorem C2_compile_error_leaves_cache {A : Type}
    (rc : String → Nat → Except String A) (st : CacheSt A)
    (p : String) (flags : Nat) (e : String)
    (hrc : rc p flags = Except.error e)
    (hmiss : cacheFind st.cache (cacheKey p flags) = none) :
    compile_pattern rc st p flags =
      (Except.error ("Invalid regex pattern: " ++ e), st) ∧
    cacheFind (compile_pattern rc st p flags).2.cache (cacheKey p flags) =
      none := by
  unfold compile_pattern
  simp [hmiss, hrc]

theorem C2_witness :
    compile_pattern rcAlwaysBad (CacheSt.mk []) "a" 0 =
      (Except.error ("Invalid regex pattern: " ++ "bad pattern"),
        CacheSt.mk []) ∧
    cacheFind (compile_pattern rcAlwaysBad (CacheSt.mk []) "a" 0).2.cache
      (cacheKey "a" 0) = none :=
  C2_compile_error_leaves_cache rcAlwaysBad (CacheSt.mk []) "a" 0
    "bad pattern" rfl rfl

/-- C3: whenever a call of `compile_pattern` returns an automaton `a` and
cache state `st'`, calling it again with the same pattern text and flags on
`st'` returns the identical automaton `a` and leaves the state at `st'`;
matching through the second result therefore equals matching through the
first, which is the behaviour of compiling once. -/
theorem C3_compile_pattern_idempotent {A : Type}
    (rc : String → Nat → Except String A) (st st' : CacheSt A)
    (p : String) (flags : Nat) (a : A)
    (h : compile_pattern rc st p flags = (Except.ok a, st')) :
    compile_pattern rc st' p flags = (Except.ok a, st') := by
  unfold compile_pattern at h ⊢
  cases hfind : cacheFind st.cache (cacheKey p flags) with
  | some a0 =>
      rw [hfind] at h
      simp at h
      obtain ⟨rfl, rfl⟩ := h
      simp [hfind]
  | none =>
      rw [hfind] at h
      cases hrc : rc p flags with
      | ok a1 =>
          rw [hrc] at h
          simp at h
          obtain ⟨rfl, rfl⟩ := h
          simp [cacheFind, List.find?]
      | error e =>
          rw [hrc] at h
          simp at h

theorem C3_witness :
    compile_pattern rcAlwaysOk
      (CacheSt.mk [(cacheKey "a" 0, ("a", 0))]) "a" 0 =
      (Except.ok ("a", 0), CacheSt.mk [(cacheKey "a" 0, ("a", 0))]) :=
  C3_compile_pattern_idempotent rcAlwaysOk (CacheSt.mk []) _ "a" 0 ("a", 0)
    rfl

/-- C4: the cache key encoding pattern-underscore-flags is injective over
pattern strings and natural flag values, so distinct (pattern, flags) pairs
never collide on one cache entry. -/
theorem C4_cacheKey_injective (p1 p2 : String) (f1 f2 : Nat)
    (h : cacheKey p1 f1 = cacheKey p2 f2) : p1 = p2 ∧ f1 = f2 := by
  have hdata : p1.data ++ '_' :: decChars (f1 + 1) f1 =
      p2.data ++ '_' :: decChars (f2 + 1) f2 := by
    have h1 := congrArg String.data h
    unfold cacheKey pyNatStr at h1
    rw [String.data_append, String.data_append] at h1
    simpa using h1
  have hsplit := append_sep_inj '_' p1.data p2.data _ _
    (underscore_not_mem_decChars _ _ (by omega))
    (underscore_not_mem_decChars _ _ (by omega)) hdata
  constructor
  · exact String.ext hsplit.1
  · have hv := congrArg valOfDigits hsplit.2
    rw [valOfDigits_decChars _ _ (by omega),
      valOfDigits_decChars _ _ (by omega)] at hv
    exact hv

theorem C4_witness : ("ab" : String) = "ab" ∧ (3 : Nat) = 3 :=
  C4_cacheKey_injective "ab" "ab" 3 3 rfl

/-- The `RegexContext` dataclass from src/exceptions.py: context information
carried by every regex-related exception. -/
structure RegexContext where
  pattern : String
  input_string : Option String := none
  position : Option Nat := none
  message : Option String := none
deriving DecidableEq

/-- The exception classes of src/exceptions.py deriving from
`RegexBaseError`; each carries a `RegexContext`. -/
inductive RegexErr where
  | invalidRegex (ctx : RegexContext)
  | patternNotFound (ctx : RegexContext)
  | emptyPattern (ctx : RegexContext)
deriving DecidableEq

/-- `validate_regex` from src/exceptions.py, parametric over the external
compile routine `rc`; a failure of `rc` carries the engine message text
`str(e)`. -/
def validate_regex {A : Type} (rc : String → Except String A) (p : String) :
    Except RegexErr A :=
  if p = "" then
    Except.error (RegexErr.emptyPattern
      { pattern := p, message := some "Empty pattern provided" })
  else
    match rc p with
    | Except.ok a => Except.ok a
    | Except.error e =>
        Except.error (RegexErr.invalidRegex
          { pattern := p, message := some e })

/-- `find_pattern` from src/exceptions.py, parametric over the external
compile routine `rc` and search routine `srch`, where `srch a text` is the
first match's substring (`match.group()`) or none. -/
def find_pattern {A : Type} (rc : String → Except String A)
    (srch : A → String → Option String)
    (p text : String) (raise_if_not_found : Bool := true) :
    Except RegexErr (Option String) :=
  match validate_regex rc p with
  | Except.error err => Except.error err
  | Except.ok a =>
      match srch a text with
      | none =>
          if raise_if_not_found then
            Except.error (RegexErr.patternNotFound
              { pattern := p, input_string := some text, position := some 0,
                message := some "Pattern not found in input string" })
          else Except.ok none
      | some m => Except.ok (some m)

/-- Modelled from the spec: the external engine's rejection of patterns with
unbalanced parentheses (one of the parser failure cases of section 4.1),
tracking the open-parenthesis depth along the pattern text. -/
def parenOk : List Char → Nat → Bool
  | [], 0 => true
  | [], _ + 1 => false
  | '(' :: rest, d => parenOk rest (d + 1)
  | ')' :: _, 0 => false
  | ')' :: rest, d + 1 => parenOk rest d
  | _ :: rest, d => parenOk rest d

/-- Modelled from the spec: a concrete external compile routine realising
the unbalanced-parenthesis failure case, reporting a human-readable message
as host engines do. -/
def rcParen : String → Except String Unit :=
  fun p =>
    if parenOk p.data 0 then Except.ok ()
    else Except.error "missing closing parenthesis, unterminated subpattern"

/-- C5 counterexample: on the invalid pattern `(unclosed` the raised
`InvalidRegexError` has `position = none`: the error does not carry the
offending offset, only the pattern and the engine's message text. -/
theorem C5_counterexample :
    validate_regex rcParen "(unclosed" =
      Except.error (RegexErr.invalidRegex
        { pattern := "(unclosed", input_string := none, position := none,
          message :=
            some "missing closing parenthesis, unterminated subpattern" }) :=
  by rfl

/-- C5 (amended): on every non-empty pattern that the external compile
routine rejects, `validate_regex` raises `InvalidRegexError` whose context
carries the pattern text and the engine's human-readable message, while the
`position` field is left unset: the offset is not carried structurally. -/
theorem C5_invalid_carries_message_not_position {A : Type}
    (rc : String → Except String A) (p e : String)
    (hne : p ≠ "") (hrc : rc p = Except.error e) :
    validate_regex rc p =
      Except.error (RegexErr.invalidRegex
        { pattern := p, input_string := none, position := none,
          message := some e }) := by
  unfold validate_regex
  simp [hne, hrc]

theorem C5_witness :
    validate_regex rcParen ")" =
      Except.error (RegexErr.invalidRegex
        { pattern := ")", input_string := none, position := none,
          message :=
            some "missing closing parenthesis, unterminated subpattern" }) :=
  C5_invalid_carries_message_not_position rcParen ")"
    "missing closing parenthesis, unterminated subpattern"
    (by decide) (by rfl)

/-- C6: `validate_regex` raises `EmptyPatternError` exactly on the empty
pattern: the empty pattern yields that error with the empty-pattern context
(and no other outcome), and no other pattern ever yields
`EmptyPatternError`. -/
theorem C6_empty_pattern_iff {A : Type} (rc : String → Except String A)
    (p : String) :
    (validate_regex rc p =
      Except.error (RegexErr.emptyPattern
        { pattern := "", input_string := none, position := none,
          message := some "Empty pattern provided" }) ↔ p = "") ∧
    (∀ ctx, validate_regex rc p =
      Except.error (RegexErr.emptyPattern ctx) → p = "") := by
  have honly : ∀ ctx, validate_regex rc p =
      Except.error (RegexErr.emptyPattern ctx) → p = "" := by
    intro ctx h
    by_contra hne
    unfold validate_regex at h
    rw [if_neg hne] at h
    cases hrc : rc p <;> rw [hrc] at h <;> simp at h
  refine ⟨⟨fun h => honly _ h, ?_⟩, honly⟩
  rintro rfl
  rfl

theorem C6_witness :
    validate_regex rcParen "" =
      Except.error (RegexErr.emptyPattern
        { pattern := "", input_string := none, position := none,
          message := some "Empty pattern provided" }) :=
  (C6_empty_pattern_iff rcParen "").1.mpr rfl

/-- External search routine that finds nothing; used to exercise the
required-match failure path at a concrete input. -/
def srchNone : Unit → String → Option String :=
  fun _ _ => none

/-- C7: for a non-empty pattern accepted by the engine, `find_pattern` with
`raise_if_not_found = true` raises `PatternNotFoundError` carrying the full
pattern and the full input text when the search finds nothing, and returns
the first match's substring, raising nothing, when a match exists. -/
theorem C7_find_pattern_required {A : Type}
    (rc : String → Except String A) (srch : A → String → Option String)
    (p text : String) (a : A)
    (hrc : rc p = Except.ok a) (hne : p ≠ "") :
    (srch a text = none →
      find_pattern rc srch p text true =
        Except.error (RegexErr.patternNotFound
          { pattern := p, input_string := some text, position := some 0,
            message := some "Pattern not found in input string" })) ∧
    (∀ m, srch a text = some m →
      find_pattern rc srch p text true = Except.ok (some m)) := by
  have hval : validate_regex rc p = Except.ok a := by
    unfold validate_regex
    simp [hne, hrc]
  constructor
  · intro hs
    unfold find_pattern
    rw [hval]
    simp [hs]
  · intro m hs
    unfold find_pattern
    rw [hval]
    simp [hs]

theorem C7_witness :
    find_pattern rcParen srchNone "x" "abc" true =
      Except.error (RegexErr.patternNotFound
        { pattern := "x", input_string := some "abc", position := some 0,
          message := some "Pattern not found in input string" }) :=
  (C7_find_pattern_required rcParen srchNone "x" "abc" ()
    (by rfl) (by decide)).1 rfl

/-- Capture records of the executor: group index together with start and end
offsets of the captured slice; the most recent record for an index is the
group's current capture, as later iterations overwrite earlier ones. -/
abbrev Caps := List (Nat × Nat × Nat)

/-- Modelled from the spec: the AST node kinds of section 3 that the claims
exercise. Capturing groups carry the 1-based index and optional name that
the parser assigns; `Star` is `Repeat` with bounds zero to infinity, with
`+` derived as one copy followed by a star. -/
inductive Regex where
  | Eps : Regex
  | Literal : Char → Regex
  | AnyChar : Regex
  | CharClass : List (Char × Char) → Bool → Regex
  | Concat : Regex → Regex → Regex
  | Alternation : Regex → Regex → Regex
  | Group : Nat → Option String → Regex → Regex
  | Star : Regex → Bool → Regex
deriving DecidableEq

/-- Membership of a character in the resolved range list of a character
class. -/
def inRanges (c : Char) (ranges : List (Char × Char)) : Bool :=
  ranges.any (fun r => decide (r.1 ≤ c) && decide (c ≤ r.2))

/-- Character-class test with negation. -/
def clsTest (c : Char) (ranges : List (Char × Char)) (negated : Bool) : Bool :=
  if negated then !(inRanges c ranges) else inRanges c ranges

/-- Consume one character at `pos` when it passes `ok`, yielding the single
continuation one past it; fail at end of input. -/
def consume (ok : Char → Bool) (s : List Char) (pos : Nat) (caps : Caps) :
    List (Nat × Caps) :=
  match s[pos]? with
  | some c => if ok c then [(pos + 1, caps)] else []
  | none => []

/-- Modelled from the spec: the backtracking executor of section 4.3. For a
node, text, offset and capture state it returns the continuation states in
backtracking priority order: the head is the alternative the engine commits
to first (leftmost-first alternation; greedy repeats longest first, lazy
repeats shortest first). A repeat prunes iterations that consume no input,
terminating zero-width loops; the fuel bounds recursion depth and is chosen
large enough by the entry points. -/
def mrun : Nat → Regex → List Char → Nat → Caps → List (Nat × Caps)
  | 0, _, _, _, _ => []
  | _ + 1, Regex.Eps, _, pos, caps => [(pos, caps)]
  | _ + 1, Regex.Literal c, s, pos, caps =>
      consume (fun x => x == c) s pos caps
  | _ + 1, Regex.AnyChar, s, pos, caps =>
      consume (fun x => !(x == '\n')) s pos caps
  | _ + 1, Regex.CharClass ranges negated, s, pos, caps =>
      consume (fun x => clsTest x ranges negated) s pos caps
  | f + 1, Regex.Concat a b, s, pos, caps =>
      (mrun f a s pos caps).flatMap (fun pc => mrun f b s pc.1 pc.2)
  | f + 1, Regex.Alternation a b, s, pos, caps =>
      mrun f a s pos caps ++ mrun f b s pos caps
  | f + 1, Regex.Group i _ a, s, pos, caps =>
      (mrun f a s pos caps).map (fun pc => (pc.1, (i, pos, pc.1) :: pc.2))
  | f + 1, Regex.Star a lz, s, pos, caps =>
      if lz then
        (pos, caps) :: (mrun f a s pos caps).flatMap (fun pc =>
          if pc.1 = pos then [] else mrun f (Regex.Star a lz) s pc.1 pc.2)
      else
        ((mrun f a s pos caps).flatMap (fun pc =>
          if pc.1 = pos then [] else mrun f (Regex.Star a lz) s pc.1 pc.2)) ++
          [(pos, caps)]

/-- Structural size of an AST, used to budget executor fuel. -/
def rsize : Regex → Nat
  | Regex.Eps => 1
  | Regex.Literal _ => 1
  | Regex.AnyChar => 1
  | Regex.CharClass _ _ => 1
  | Regex.Concat a b => rsize a + rsize b + 1
  | Regex.Alternation a b => rsize a + rsize b + 1
  | Regex.Group _ _ a => rsize a + 1
  | Regex.Star a _ => rsize a + 1

/-- Fuel budget: depth of the pattern times the text length, with slack. -/
def engineFuel (r : Regex) (s : List Char) : Nat :=
  (rsize r + 2) * (s.length + 2)

/-- Modelled from the spec: `try_match_at`, the anchored attempt at exactly
`pos`; the committed result is the highest-priority continuation. -/
def tryMatchAt (r : Regex) (s : List Char) (pos : Nat) : Option (Nat × Caps) :=
  (mrun (engineFuel r s) r s pos []).head?

/-- Modelled from the spec: unanchored search, scanning the start offset
upward until an anchored attempt succeeds; yields match start, match end
and captures. -/
def searchFromF : Nat → Regex → List Char → Nat → Option (Nat × Nat × Caps)
  | 0, _, _, _ => none
  | f + 1, r, s, pos =>
      match tryMatchAt r s pos with
      | some pc => some (pos, pc.1, pc.2)
      | none => if pos < s.length then searchFromF f r s (pos + 1) else none

/-- `search` entry point: scan from `pos` with enough fuel to reach the end
of the text. -/
def pySearch (r : Regex) (s : List Char) (pos : Nat) :
    Option (Nat × Nat × Caps) :=
  searchFromF (s.length + 1) r s pos

/-- Current capture of a group index: the most recent record. -/
def capsGet (caps : Caps) (i : Nat) : Option (Nat × Nat) :=
  match caps.find? (fun e => e.1 == i) with
  | some e => some (e.2.1, e.2.2)
  | none => none

/-- Modelled from the spec: replacement-template expansion, substituting
each numeric backreference by the corresponding captured slice (empty when
the group did not participate). -/
def expandTemplate : List Char → List Char → Caps → List Char
  | [], _, _ => []
  | '\\' :: c :: rest, s, caps =>
      if c.isDigit then
        (match capsGet caps (c.toNat - 48) with
         | some be => (s.take be.2).drop be.1
         | none => []) ++ expandTemplate rest s caps
      else '\\' :: c :: expandTemplate rest s caps
  | c :: rest, s, caps => c :: expandTemplate rest s caps

/-- Modelled from the spec: `find_all` iteration, repeatedly searching from
the end of the previous match and stepping one unit past zero-width matches
so that it always progresses. -/
def findAllFrom : Nat → Regex → List Char → Nat → List (Nat × Nat × Caps)
  | 0, _, _, _ => []
  | f + 1, r, s, pos =>
      if pos > s.length then []
      else
        match pySearch r s pos with
        | none => []
        | some bec =>
            bec :: findAllFrom f r s
              (if bec.2.1 = bec.1 then bec.2.1 + 1 else bec.2.1)

/-- Modelled from the spec: `replace` iteration, copying unmatched text and
substituting the expanded template for each match, stepping one unit past
zero-width matches. -/
def subFrom : Nat → Regex → List Char → List Char → Nat → List Char
  | 0, _, s, _, pos => s.drop pos
  | f + 1, r, s, tmpl, pos =>
      if pos > s.length then []
      else
        match pySearch r s pos with
        | none => s.drop pos
        | some bec =>
            ((s.drop pos).take (bec.1 - pos)) ++
              expandTemplate tmpl s bec.2.2 ++
              (if bec.2.1 = bec.1 then
                ((s.drop bec.2.1).take 1) ++ subFrom f r s tmpl (bec.2.1 + 1)
              else subFrom f r s tmpl bec.2.1)

/-- The substring of the text between two offsets. -/
def sliceStr (s : List Char) (b e : Nat) : String :=
  String.mk ((s.take e).drop b)

/-- Number of capturing groups of a pattern. -/
def numGroups : Regex → Nat
  | Regex.Concat a b => numGroups a + numGroups b
  | Regex.Alternation a b => numGroups a + numGroups b
  | Regex.Group _ _ a => numGroups a + 1
  | Regex.Star a _ => numGroups a
  | _ => 0

/-- The `MatchResult` dataclass from src/regex_tester.py: span and groups
default to empty tuples and `named_groups` to None. -/
structure MatchResult where
  matched : Bool
  value : String
  groups : List (Option String) := []
  span : List Nat := []
  named_groups : Option (List (String × Option String)) := none
deriving DecidableEq

/-- The tuple `match.groups()`: one optional captured substring per
capturing group, group 1 first; the whole match is not included. -/
def pyGroups (n : Nat) (s : List Char) (caps : Caps) : List (Option String) :=
  (List.range n).map (fun i =>
    (capsGet caps (i + 1)).map (fun be => sliceStr s be.1 be.2))

/-- Name-to-index pairs of the pattern's named groups, in order. -/
def groupNames : Regex → List (String × Nat)
  | Regex.Group i (some nm) a => (nm, i) :: groupNames a
  | Regex.Group _ none a => groupNames a
  | Regex.Concat a b => groupNames a ++ groupNames b
  | Regex.Alternation a b => groupNames a ++ groupNames b
  | Regex.Star a _ => groupNames a
  | _ => []

/-- The mapping `match.groupdict()`: each named group's optional captured
substring. -/
def pyGroupDict (r : Regex) (s : List Char) (caps : Caps) :
    List (String × Option String) :=
  (groupNames r).map (fun ni =>
    (ni.1, (capsGet caps ni.2).map (fun be => sliceStr s be.1 be.2)))

/-- `RegexMatcher.match` from src/regex_tester.py over the modelled engine:
an anchored attempt at offset 0; on success the wrapper records
`match.group()`, `match.groups()`, `match.span()` and `match.groupdict()`;
on failure it returns `MatchResult(matched=False, value="")` with the
dataclass defaults for the remaining fields. -/
def matcherMatch (r : Regex) (text : String) : MatchResult :=
  match tryMatchAt r text.data 0 with
  | some pc =>
      { matched := true
        value := sliceStr text.data 0 pc.1
        groups := pyGroups (numGroups r) text.data pc.2
        span := [0, pc.1]
        named_groups := some (pyGroupDict r text.data pc.2) }
  | none => { matched := false, value := "" }

/-- `RegexMatcher.find_all` from src/regex_tester.py over the modelled
engine: one `MatchResult` per match of the finditer scan. -/
def matcherFindAll (r : Regex) (text : String) : List MatchResult :=
  (findAllFrom (text.data.length + 2) r text.data 0).map (fun bec =>
    { matched := true
      value := sliceStr text.data bec.1 bec.2.1
      groups := pyGroups (numGroups r) text.data bec.2.2
      span := [bec.1, bec.2.1]
      named_groups := some (pyGroupDict r text.data bec.2.2) })

/-- `RegexMatcher.replace` from src/regex_tester.py over the modelled
engine: substitute every match by the expanded replacement template. -/
def matcherReplace (r : Regex) (text repl : String) : String :=
  String.mk (subFrom (text.data.length + 2) r text.data repl.data 0)

/-- The character class shorthand for word characters. -/
def wordClass : Regex :=
  Regex.CharClass [('a', 'z'), ('A', 'Z'), ('0', '9'), ('_', '_')] false

/-- One-or-more repetition, derived as one copy followed by a star. -/
def plus1 (r : Regex) : Regex := Regex.Concat r (Regex.Star r false)

/-- The pattern of the replace round-trip: word characters, an at sign,
word characters, with the two words capturing as groups 1 and 2. -/
def rxC9 : Regex :=
  Regex.Concat (Regex.Group 1 none (plus1 wordClass))
    (Regex.Concat (Regex.Literal '@') (Regex.Group 2 none (plus1 wordClass)))

/-- A pattern with one capturing group followed by a literal. -/
def rxC1 : Regex :=
  Regex.Concat (Regex.Group 1 none (Regex.Literal 'a')) (Regex.Literal 'b')

theorem memOfHead {α : Type} (l : List α) (x : α) (h : l.head? = some x) :
    x ∈ l := by
  cases l with
  | nil => simp at h
  | cons a as =>
      simp at h
      subst h
      exact List.mem_cons_self a as

theorem consume_bound (ok : Char → Bool) (s : List Char) (pos : Nat)
    (caps : Caps) (pc : Nat × Caps) (h : pc ∈ consume ok s pos caps) :
    pc.1 = pos + 1 ∧ pos < s.length := by
  unfold consume at h
  cases hg : s[pos]? with
  | none => rw [hg] at h; simp at h
  | some c =>
      rw [hg] at h
      have hlt : pos < s.length := by
        by_contra hge
        rw [List.getElem?_eq_none (by omega)] at hg
        simp at hg
      by_cases hok : ok c
      · simp [hok] at h
        exact ⟨by rw [h], hlt⟩
      · simp [hok] at h

theorem mrun_mem_bound (s : List Char) :
    ∀ (fuel : Nat) (r : Regex) (pos : Nat) (caps : Caps), pos ≤ s.length →
      ∀ pc ∈ mrun fuel r s pos caps, pos ≤ pc.1 ∧ pc.1 ≤ s.length := by
  intro fuel
  induction fuel with
  | zero =>
      intro r pos caps hpos pc hpc
      simp [mrun] at hpc
  | succ f ih =>
      intro r pos caps hpos pc hpc
      cases r with
      | Eps =>
          simp [mrun] at hpc
          subst hpc
          exact ⟨Nat.le_refl _, hpos⟩
      | Literal c =>
          simp only [mrun] at hpc
          have := consume_bound _ s pos caps pc hpc
          omega
      | AnyChar =>
          simp only [mrun] at hpc
          have := consume_bound _ s pos caps pc hpc
          omega
      | CharClass ranges negated =>
          simp only [mrun] at hpc
          have := consume_bound _ s pos caps pc hpc
          omega
      | Concat a b =>
          simp only [mrun, List.mem_flatMap] at hpc
          obtain ⟨pc1, h1, h2⟩ := hpc
          have b1 := ih a pos caps hpos pc1 h1
          have b2 := ih b pc1.1 pc1.2 b1.2 pc h2
          omega
      | Alternation a b =>
          simp only [mrun, List.mem_append] at hpc
          rcases hpc with h | h
          · exact ih a pos caps hpos pc h
          · exact ih b pos caps hpos pc h
      | Group i nm a =>
          simp only [mrun, List.mem_map] at hpc
          obtain ⟨pc1, h1, rfl⟩ := hpc
          simpa using ih a pos caps hpos pc1 h1
      | Star a lz =>
          cases lz with
          | true =>
              simp only [mrun] at hpc
              rw [if_pos trivial] at hpc
              rcases List.mem_cons.mp hpc with rfl | hpc2
              · exact ⟨Nat.le_refl _, hpos⟩
              · rw [List.mem_flatMap] at hpc2
                obtain ⟨pc1, h1, h2⟩ := hpc2
                have b1 := ih a pos caps hpos pc1 h1
                by_cases hp : pc1.1 = pos
                · rw [if_pos hp] at h2
                  simp at h2
                · rw [if_neg hp] at h2
                  have b2 := ih (Regex.Star a true) pc1.1 pc1.2 b1.2 pc h2
                  omega
          | false =>
              simp only [mrun] at hpc
              rw [if_neg (by simp)] at hpc
              rcases List.mem_append.mp hpc with hc | hl
              · rw [List.mem_flatMap] at hc
                obtain ⟨pc1, h1, h2⟩ := hc
                have b1 := ih a pos caps hpos pc1 h1
                by_cases hp : pc1.1 = pos
                · rw [if_pos hp] at h2
                  simp at h2
                · rw [if_neg hp] at h2
                  have b2 := ih (Regex.Star a false) pc1.1 pc1.2 b1.2 pc h2
                  omega
              · have hpc3 : pc = (pos, caps) := by simpa using hl
                subst hpc3
                exact ⟨Nat.le_refl _, hpos⟩

theorem tryMatchAt_bound (r : Regex) (s : List Char) (pos e : Nat)
    (caps : Caps) (hpos : pos ≤ s.length)
    (h : tryMatchAt r s pos = some (e, caps)) : pos ≤ e ∧ e ≤ s.length := by
  unfold tryMatchAt at h
  have hmem : (e, caps) ∈ mrun (engineFuel r s) r s pos [] := memOfHead _ _ h
  exact mrun_mem_bound s _ r pos [] hpos (e, caps) hmem

theorem searchFromF_bound :
    ∀ (fuel : Nat) (r : Regex) (s : List Char) (pos b e : Nat) (caps : Caps),
      pos ≤ s.length → searchFromF fuel r s pos = some (b, e, caps) →
      pos ≤ b ∧ b ≤ e ∧ e ≤ s.length := by
  intro fuel
  induction fuel with
  | zero =>
      intro r s pos b e caps hpos h
      simp [searchFromF] at h
  | succ f ih =>
      intro r s pos b e caps hpos h
      simp only [searchFromF] at h
      cases htry : tryMatchAt r s pos with
      | some pc =>
          rw [htry] at h
          have h2 := Option.some.inj h
          obtain ⟨h3, h4⟩ := Prod.mk.inj h2
          obtain ⟨h5, h6⟩ := Prod.mk.inj h4
          subst h3
          subst h5
          subst h6
          have hb := tryMatchAt_bound r s pos pc.1 pc.2 hpos (by rw [htry])
          exact ⟨Nat.le_refl _, hb.1, hb.2⟩
      | none =>
          rw [htry] at h
          simp at h
          obtain ⟨hlt, h⟩ := h
          obtain ⟨h1, h2, h3⟩ := ih r s (pos + 1) b e caps (by omega) h
          exact ⟨by omega, h2, h3⟩

theorem findAllFrom_bound :
    ∀ (fuel : Nat) (r : Regex) (s : List Char) (pos : Nat),
      ∀ bec ∈ findAllFrom fuel r s pos,
        bec.1 ≤ bec.2.1 ∧ bec.2.1 ≤ s.length := by
  intro fuel
  induction fuel with
  | zero =>
      intro r s pos bec h
      simp [findAllFrom] at h
  | succ f ih =>
      intro r s pos bec h
      simp only [findAllFrom] at h
      by_cases hgt : pos > s.length
      · rw [if_pos hgt] at h
        simp at h
      · rw [if_neg hgt] at h
        cases hsr : pySearch r s pos with
        | none =>
            rw [hsr] at h
            simp at h
        | some bec0 =>
            rw [hsr] at h
            simp only [List.mem_cons] at h
            rcases h with rfl | htail
            · have hb := searchFromF_bound (s.length + 1) r s pos bec.1
                bec.2.1 bec.2.2 (by omega)
                (by unfold pySearch at hsr; rw [hsr])
              exact ⟨hb.2.1, hb.2.2⟩
            · exact ih r s _ bec htail

/-- Decidable check that a span value is a pair within the text bounds. -/
def spanChk (sp : List Nat) (n : Nat) : Bool :=
  match sp with
  | [b, e] => decide (b ≤ e) && decide (e ≤ n)
  | _ => false

/-- C1 counterexample: for the pattern with one capturing group matched
against "ab", the groups sequence has one entry (not one more than the
number of capturing groups) and its first entry is the group capture "a",
not the whole matched text "ab" stored in value. -/
theorem C1_counterexample :
    ¬ (((matcherMatch rxC1 "ab").groups.length = numGroups rxC1 + 1) ∧
      (matcherMatch rxC1 "ab").groups.head? =
        some (some (matcherMatch rxC1 "ab").value)) := by
  decide

/-- C1 (amended): for every pattern and text for which the matcher reports
a match, the groups field has exactly one optional-substring entry per
capturing group (group 1 first, the whole match not included), while the
whole matched text is carried by the value field, equal to the substring of
the text over the reported span starting at 0. -/
theorem C1_groups_one_per_capture (r : Regex) (text : String) (e : Nat)
    (caps : Caps) (h : tryMatchAt r text.data 0 = some (e, caps)) :
    (matcherMatch r text).groups.length = numGroups r ∧
    (matcherMatch r text).value = sliceStr text.data 0 e ∧
    (matcherMatch r text).span = [0, e] := by
  unfold matcherMatch
  rw [h]
  refine ⟨?_, rfl, rfl⟩
  simp [pyGroups]

theorem C1_witness :
    (matcherMatch rxC1 "ab").groups.length = numGroups rxC1 ∧
    (matcherMatch rxC1 "ab").value = sliceStr "ab".data 0 2 ∧
    (matcherMatch rxC1 "ab").span = [0, 2] :=
  C1_groups_one_per_capture rxC1 "ab" 2 [(1, 0, 1)] (by decide)

/-- C8: for every pattern and text, the span of a successful anchored match
and the span of every element of find_all is a pair (start, end) with
start ≤ end ≤ length of the text. -/
theorem C8_spans_in_bounds (r : Regex) (text : String) :
    ((matcherMatch r text).matched = true →
      spanChk (matcherMatch r text).span text.data.length = true) ∧
    (matcherFindAll r text).all
      (fun mr => spanChk mr.span text.data.length) = true := by
  constructor
  · intro hm
    unfold matcherMatch at hm ⊢
    cases htry : tryMatchAt r text.data 0 with
    | none =>
        rw [htry] at hm
        simp at hm
    | some pc =>
        have hb := tryMatchAt_bound r text.data 0 pc.1 pc.2 (Nat.zero_le _)
          (by rw [htry])
        simp [spanChk]
        exact hb.2
  · rw [List.all_eq_true]
    intro mr hmr
    unfold matcherFindAll at hmr
    rw [List.mem_map] at hmr
    obtain ⟨bec, hbec, rfl⟩ := hmr
    have hb := findAllFrom_bound _ r text.data 0 bec hbec
    simp [spanChk]
    exact hb

theorem C8_witness :
    spanChk (matcherMatch (Regex.Literal 'a') "a").span "a".data.length =
      true :=
  (C8_spans_in_bounds (Regex.Literal 'a') "a").1 (by decide)

/-- C9: replacing matches of the word-at-word pattern in "write to a@b"
with the template swapping the two captured groups yields exactly
"write to b@a". -/
theorem C9_replace_roundtrip :
    matcherReplace rxC9 "write to a@b" "\\2@\\1" = "write to b@a" := by
  decide

/-- C10: whenever no match exists at the start of the text, the wrapper
returns (rather than raises) the sentinel MatchResult with matched false,
empty value, empty groups tuple, empty span tuple and named_groups None. -/
theorem C10_failed_match_sentinel (r : Regex) (text : String)
    (h : tryMatchAt r text.data 0 = none) :
    matcherMatch r text =
      { matched := false, value := "", groups := [], span := [],
        named_groups := none } := by
  unfold matcherMatch
  rw [h]

theorem C10_witness :
    matcherMatch (Regex.Literal 'a') "b" =
      { matched := false, value := "", groups := [], span := [],
        named_groups := none } :=
  C10_failed_match_sentinel (Regex.Literal 'a') "b" (by decide)
